import Mathlib

/-!
Verification development for `udio_downloader.py`, a single-file Python
program that validates a song-page URL, fetches the page, extracts MP3
candidate links, probes them, derives a sanitized title, and downloads
the chosen file.

The embedding represents Python strings as `List Char` (called `Chars`
below).  Pure string manipulation (splitting, stripping, the sanitize
step of line 94, the dedup loop of lines 54-60, the probe loop of lines
64-78, the title logic of lines 86-94) is translated directly from the
source.  Network effects (`requests.get`, `requests.head`), the result
of the two regular-expression scans on the fetched body, and filesystem
effects (`os.path.exists`, `os.makedirs`, the file open in
`download_audio`) are abstracted as explicit inputs, since the claims
quantify over their outcomes.  `urllib.parse.urlparse` is a library
dependency; it is modelled from its documented CPython behaviour
(scheme split, `//`-netloc split, fragment/query/params removal,
`ValueError` on unbalanced brackets in the netloc), restricted to its
ASCII behaviour, as are `\w` and `\s` of the `re` module.
-/

/-- Python strings in the model: lists of characters. -/
abbrev Chars := List Char

/-- Test whether `pat` is an initial segment of `l` (Python `str.startswith`,
also the head test used when scanning for a substring). -/
def startsWith : Chars → Chars → Bool
  | [], _ => true
  | _ :: _, [] => false
  | p :: ps, c :: cs => p == c && startsWith ps cs

/-- Python `sep in s` substring test (for a fixed non-empty separator). -/
def occursIn (pat : Chars) : Chars → Bool
  | [] => startsWith pat []
  | c :: cs => startsWith pat (c :: cs) || occursIn pat cs

/-- Split at the first occurrence of `sep`: returns the part before it and,
when `sep` occurs, the part after it.  This is the building block used to
model Python `str.split`, `str.partition` and `str.find`. -/
def breakOn (sep : Chars) : Chars → Chars × Option Chars
  | [] => ([], none)
  | c :: cs =>
    if startsWith sep (c :: cs) then ([], some ((c :: cs).drop sep.length))
    else
      let r := breakOn sep cs
      (c :: r.1, r.2)

/-- Whitespace recognised by Python `str.strip` and by the regex class `\s`
(ASCII part): space, tab, newline, carriage return, vertical tab, form feed. -/
def isPySpace (c : Char) : Bool :=
  c == ' ' || c == '\t' || c == '\n' || c == '\r' || c == '\x0b' || c == '\x0c'

/-- Word characters of the regex class `\w` (ASCII part): letters, digits
and the underscore. -/
def isWordChar (c : Char) : Bool :=
  c.isAlphanum || c == '_'

/-- Characters kept by the substitution `re.sub(r'[^\w\s-]', '', ...)` of
line 94: word characters, whitespace, and the hyphen. -/
def keepChar (c : Char) : Bool :=
  isWordChar c || isPySpace c || c == '-'

/-- Python `str.strip()`: remove leading and trailing whitespace. -/
def stripPy (l : Chars) : Chars :=
  ((l.dropWhile isPySpace).reverse.dropWhile isPySpace).reverse

/-- The character map of `str.replace(' ', '_')` on line 94. -/
def underscoreSpaces (c : Char) : Char :=
  if c = ' ' then '_' else c

/-- Line 94 of the source: `re.sub(r'[^\w\s-]', '', song_title).strip().replace(' ', '_')`. -/
def sanitizePy (l : Chars) : Chars :=
  (stripPy (l.filter keepChar)).map underscoreSpaces

/-- Line 92 of the source: `title_text.split(' - ')[1].split(' | ')[0].strip()`.
The element `[1]` of `split(' - ')` is the text between the first and the
second occurrence of `' - '` (or the end of the string). -/
def songSegment (t : Chars) : Chars :=
  let afterFirst := ((breakOn " - ".data t).2).getD []
  let second := (breakOn " - ".data afterFirst).1
  stripPy (breakOn " | ".data second).1

/-- Lines 86-94 of the source: derive the song title from the result of
`re.search(r'<title>([^<]+)</title>', response.text)` (`none` when the
search finds nothing, `some t` when group 1 is `t`).  The default
`'udio_song'` is replaced only when a title element was found and contains
`' - '`; the sanitize step runs whenever a title element was found. -/
def titleOf : Option Chars → Chars
  | none => "udio_song".data
  | some t =>
    let base := if occursIn " - ".data t then songSegment t else "udio_song".data
    sanitizePy base

/-- Result of the page scan inside `extract_audio_url`: the list produced by
`re.findall(r'https://storage\.googleapis\.com/[^"]+\.mp3', response.text)`
(in scan order, possibly with repeats) and the optional first group of the
title search. -/
structure Page where
  mp3Urls : List Chars
  titleMatch : Option Chars
deriving DecidableEq

/-- Outcome of `requests.get(udio_url, timeout=10)` followed by
`raise_for_status()`: either an exception (caught at lines 99-104) or a
fetched page abstracted by its two scan results. -/
inductive FetchResult where
  | err : FetchResult
  | ok : Page → FetchResult

/-- Outcome of one probe `requests.head(url, timeout=5)`: an exception, or a
response with the given status code. -/
inductive Probe where
  | fail : Probe
  | status : Nat → Probe
deriving DecidableEq

/-- Lines 54-60 of the source: the `seen` / `unique_urls` loop, removing
duplicates while preserving order. -/
def dedupAux (seen : List Chars) : List Chars → List Chars
  | [] => []
  | u :: rest =>
    if u ∈ seen then dedupAux seen rest
    else u :: dedupAux (u :: seen) rest

/-- Deduplication of the scanned URLs, starting from an empty `seen` set. -/
def dedup (l : List Chars) : List Chars :=
  dedupAux [] l

/-- Position of the first occurrence of `x` in a list (length of the list
when `x` does not occur); used to state first-occurrence order. -/
def firstIdx (x : Chars) : List Chars → Nat
  | [] => 0
  | u :: rest => if u = x then 0 else firstIdx x rest + 1

/-- Lines 64-78 of the source: probe each unique URL in order and keep the
first one whose HEAD request returns status code 200; probe exceptions and
other status codes move on to the next candidate. -/
def pickAudio (probe : Chars → Probe) : List Chars → Option Chars
  | [] => none
  | u :: rest =>
    if probe u = Probe.status 200 then some u
    else pickAudio probe rest

/-- Python truthiness of the `audio_url` variable at lines 80 and 175:
`None` and the empty string are falsy. -/
def pyFalsy : Option Chars → Bool
  | none => true
  | some s => s.isEmpty

/-- Lines 30-104 of the source, `extract_audio_url`, as a function of the
fetch outcome and the probe outcomes.  Failure paths return `(none, none)`
(Python `(None, None)`); the success path returns the selected URL (the
first probed success, or the first unique URL as fallback, lines 80-83) and
the derived title. -/
def extract_audio_url (fetch : FetchResult) (probe : Chars → Probe) :
    Option Chars × Option Chars :=
  match fetch with
  | .err => (none, none)
  | .ok page =>
    if page.mp3Urls.isEmpty then (none, none)
    else
      let urls := dedup page.mp3Urls
      let picked := pickAudio probe urls
      let audio := if pyFalsy picked then urls.head? else picked
      (audio, some (titleOf page.titleMatch))

/-- Outcome of the network and file activity inside `download_audio`
(lines 107-148): the streaming GET fails before the file is opened, or a
write fails after the file was opened, or the download completes. -/
inductive DlOutcome where
  | netErr : DlOutcome
  | writeErr : DlOutcome
  | done : DlOutcome
deriving DecidableEq

/-- Lines 107-148 of the source, `download_audio`: returns its boolean
result paired with whether the destination file was opened (created).
Every exception is caught and mapped to `False` (lines 146-148). -/
def download_audio : DlOutcome → Bool × Bool
  | .netErr => (false, false)
  | .writeErr => (false, true)
  | .done => (true, true)

/-- Character test for the C0-control-or-space strip that CPython `urlsplit`
applies to both ends of its input. -/
def isC0OrSpace (c : Char) : Bool :=
  c.toNat ≤ 32

/-- CPython `urlsplit` removes every tab, carriage return and line feed. -/
def removeUnsafe (l : Chars) : Chars :=
  l.filter (fun c => !(c == '\t' || c == '\r' || c == '\n'))

/-- Strip of leading and trailing C0 controls and spaces in `urlsplit`. -/
def stripC0 (l : Chars) : Chars :=
  ((l.dropWhile isC0OrSpace).reverse.dropWhile isC0OrSpace).reverse

/-- Characters allowed after the first letter of a URL scheme. -/
def isSchemeChar (c : Char) : Bool :=
  c.isAlpha || c.isDigit || c == '+' || c == '-' || c == '.'

/-- Scheme split of `urlsplit`: when the text before the first `:` is a
letter followed by scheme characters, it is the (lowercased) scheme;
otherwise no scheme is split off. -/
def splitScheme (l : Chars) : Chars × Chars :=
  match breakOn [':'] l with
  | (_, none) => ([], l)
  | (before, some rest) =>
    match before with
    | [] => ([], l)
    | c :: _ =>
      if c.isAlpha && before.all isSchemeChar then (before.map Char.toLower, rest)
      else ([], l)

/-- Characters ending the netloc component. -/
def isNetlocEnd (c : Char) : Bool :=
  c == '/' || c == '?' || c == '#'

/-- Drop the fragment (everything from the first `#`) and then the query
(everything from the first `?`) to obtain the path. -/
def dropQueryFrag (l : Chars) : Chars :=
  (breakOn ['?'] ((breakOn ['#'] l).1)).1

/-- Components of a parsed URL needed by the validator. -/
structure UrlParts where
  scheme : Chars
  netloc : Chars
  path : Chars
deriving DecidableEq

/-- Result of URL parsing: CPython raises `ValueError` on a netloc with an
unbalanced bracket, modelled by `err`. -/
inductive ParseResult where
  | err : ParseResult
  | ok : UrlParts → ParseResult
deriving DecidableEq

/-- Model of CPython `urllib.parse.urlsplit` restricted to the components
used by the program: sanitize the input, split a scheme, split a
`//`-introduced netloc (raising on unbalanced `[`/`]`), and strip the
fragment and query from the remainder. -/
def urlsplitModel (s : Chars) : ParseResult :=
  let u0 := removeUnsafe (stripC0 s)
  let sr := splitScheme u0
  let u1 := sr.2
  if startsWith "//".data u1 then
    let rest := u1.drop 2
    let netloc := rest.takeWhile (fun c => !isNetlocEnd c)
    let after := rest.dropWhile (fun c => !isNetlocEnd c)
    if (netloc.contains '[') != (netloc.contains ']') then ParseResult.err
    else ParseResult.ok ⟨sr.1, netloc, dropQueryFrag after⟩
  else ParseResult.ok ⟨sr.1, [], dropQueryFrag u1⟩

/-- Params split of `urlparse`: remove a `;`-introduced params part from the
last path segment (from the whole path when it has no `/`). -/
def splitParams (path : Chars) : Chars :=
  if path.contains '/' then
    let revp := path.reverse
    let br := breakOn ['/'] revp
    match br.2 with
    | none => (breakOn [';'] path).1
    | some rpre => (rpre.reverse ++ ['/']) ++ (breakOn [';'] br.1.reverse).1
  else (breakOn [';'] path).1

/-- Model of CPython `urllib.parse.urlparse`: `urlsplit` followed by the
params split on the path. -/
def urlparseModel (s : Chars) : ParseResult :=
  match urlsplitModel s with
  | .err => ParseResult.err
  | .ok p => ParseResult.ok ⟨p.scheme, p.netloc, splitParams p.path⟩

/-- Lines 21-27 of the source, `is_valid_udio_url`: parse the URL, compare
the netloc with `'www.udio.com'` and test `'/songs/' in parsed.path`;
a parse error is caught by the bare `except` and yields `False`. -/
def is_valid_udio_url (s : Chars) : Bool :=
  match urlparseModel s with
  | .err => false
  | .ok p => decide (p.netloc = "www.udio.com".data) && occursIn "/songs/".data p.path

/-- Modelled from the documented behaviour of `urllib.parse`: the `hostname`
attribute of a parse result — the netloc with any userinfo (up to the last
`@`) and any port (after `:`, outside brackets) removed, lowercased.  The
program itself never reads this attribute; it is used to state what the
"host" of a URL is. -/
def hostnameOf (p : UrlParts) : Chars :=
  let hostinfo := ((breakOn ['@'] p.netloc.reverse).1).reverse
  if hostinfo.contains '[' then
    ((breakOn [']'] (((breakOn ['['] hostinfo).2).getD [])).1).map Char.toLower
  else
    ((breakOn [':'] hostinfo).1).map Char.toLower

/-- Hostname of a URL string, `none` when parsing fails. -/
def parsedHostname (s : Chars) : Option Chars :=
  match urlparseModel s with
  | .err => none
  | .ok p => some (hostnameOf p)

/-- Path of a URL string, `none` when parsing fails. -/
def parsedPath (s : Chars) : Option Chars :=
  match urlparseModel s with
  | .err => none
  | .ok p => some p.path

/-- Environment of one program run: the argument vector and the outcomes of
every external effect `main` can trigger. -/
structure Env where
  argv : List Chars
  dirExists : Bool
  makedirsOk : Bool
  fetch : FetchResult
  probe : Chars → Probe
  dl : DlOutcome

/-- How a run of `main` terminates: a deliberate `sys.exit(code)`, an
uncaught exception propagating out of `main`, or a normal return (process
exit status 0). -/
inductive MainOutcome where
  | exit : Nat → MainOutcome
  | uncaught : MainOutcome
  | normal : MainOutcome
deriving DecidableEq

/-- Lines 151-190 of the source, `main`, returning how the run terminates
together with whether the output file was created.  The call
`os.makedirs(output_dir)` at line 169 is guarded only by the
`os.path.exists` test and sits outside every `try` block, so its failure
is an uncaught exception. -/
def main_fn (env : Env) : MainOutcome × Bool :=
  if env.argv.length < 2 then (MainOutcome.exit 1, false)
  else
    let url := stripPy (env.argv.getD 1 [])
    if !(is_valid_udio_url url) then (MainOutcome.exit 1, false)
    else if !env.dirExists && !env.makedirsOk then (MainOutcome.uncaught, false)
    else
      let r := extract_audio_url env.fetch env.probe
      if pyFalsy r.1 then (MainOutcome.exit 1, false)
      else
        let d := download_audio env.dl
        if d.1 then (MainOutcome.normal, d.2) else (MainOutcome.exit 1, d.2)

/-- Concrete probe assignment used in witnesses: only the URL "b" probes
with status 200. -/
def probeOnlyB : Chars → Probe :=
  fun u => if u = "b".data then Probe.status 200 else Probe.fail

/-- Concrete run environment used in witnesses: a valid song-page URL, an
existing output directory, a fetch whose page contains no MP3 link. -/
def envNoMatch : Env :=
  ⟨["prog".data, "https://www.udio.com/songs/abc".data], true, true,
    FetchResult.ok ⟨[], none⟩, fun _ => Probe.fail, DlOutcome.netErr⟩

/-- Concrete run environment used in witnesses: a valid song-page URL and
an already-existing output directory. -/
def envDirExists : Env :=
  ⟨["prog".data, "https://www.udio.com/songs/abc".data], true, false,
    FetchResult.err, fun _ => Probe.fail, DlOutcome.netErr⟩

theorem dropWhile_head?_not (p : Char → Bool) : ∀ (l : Chars) (c : Char),
    (l.dropWhile p).head? = some c → p c = false := by
  intro l
  induction l with
  | nil => intro c h; simp at h
  | cons u rest ih =>
    intro c h
    by_cases hu : p u = true
    · rw [List.dropWhile_cons, if_pos hu] at h
      exact ih c h
    · rw [List.dropWhile_cons, if_neg hu] at h
      simp only [List.head?_cons, Option.some.injEq] at h
      simp only [Bool.not_eq_true] at hu
      rw [← h]
      exact hu

theorem dropWhile_eq_self_of_head? (p : Char → Bool) (l : Chars)
    (h : ∀ c, l.head? = some c → p c = false) : l.dropWhile p = l := by
  cases l with
  | nil => rfl
  | cons u rest =>
    rw [List.dropWhile_cons, if_neg (by simp [h u rfl])]

theorem dropWhile_getLast? (p : Char → Bool) : ∀ (l : Chars),
    l.dropWhile p ≠ [] → (l.dropWhile p).getLast? = l.getLast? := by
  intro l
  induction l with
  | nil => intro h; simp at h
  | cons u rest ih =>
    intro h
    by_cases hu : p u = true
    case neg => rw [List.dropWhile_cons, if_neg hu]
    case pos =>
      rw [List.dropWhile_cons, if_pos hu] at h ⊢
      have hrest : rest ≠ [] := by
        intro he
        rw [he] at h
        simp at h
      obtain ⟨v, vs, rfl⟩ := List.exists_cons_of_ne_nil hrest
      rw [List.getLast?_cons_cons]
      exact ih h

theorem stripPy_head?_not (l : Chars) (c : Char) (h : (stripPy l).head? = some c) :
    isPySpace c = false := by
  unfold stripPy at h
  rw [List.head?_reverse] at h
  have hne : (l.dropWhile isPySpace).reverse.dropWhile isPySpace ≠ [] := by
    intro he
    rw [he] at h
    simp at h
  rw [dropWhile_getLast? _ _ hne, List.getLast?_reverse] at h
  exact dropWhile_head?_not _ _ _ h

theorem stripPy_getLast?_not (l : Chars) (c : Char) (h : (stripPy l).getLast? = some c) :
    isPySpace c = false := by
  unfold stripPy at h
  rw [List.getLast?_reverse] at h
  exact dropWhile_head?_not _ _ _ h

theorem stripPy_eq_self (l : Chars)
    (h1 : ∀ c, l.head? = some c → isPySpace c = false)
    (h2 : ∀ c, l.getLast? = some c → isPySpace c = false) :
    stripPy l = l := by
  unfold stripPy
  rw [dropWhile_eq_self_of_head? _ _ h1]
  rw [dropWhile_eq_self_of_head? _ _ (fun c hc => h2 c (by rwa [List.head?_reverse] at hc))]
  exact List.reverse_reverse l

theorem mem_stripPy (l : Chars) (c : Char) (h : c ∈ stripPy l) : c ∈ l := by
  unfold stripPy at h
  rw [List.mem_reverse] at h
  have hA : c ∈ (l.dropWhile isPySpace).reverse := (List.dropWhile_sublist _).subset h
  rw [List.mem_reverse] at hA
  exact (List.dropWhile_sublist _).subset hA

theorem mem_sanitizePy (l : Chars) (c : Char) (h : c ∈ sanitizePy l) :
    keepChar c = true ∧ c ≠ ' ' := by
  unfold sanitizePy at h
  obtain ⟨d, hd, rfl⟩ := List.mem_map.mp h
  have hdk : keepChar d = true := List.of_mem_filter (mem_stripPy _ _ hd)
  by_cases hsp : d = ' '
  · subst hsp
    refine ⟨by decide, by decide⟩
  · unfold underscoreSpaces
    rw [if_neg hsp]
    exact ⟨hdk, hsp⟩

theorem sanitizePy_head?_not (l : Chars) (c : Char)
    (h : (sanitizePy l).head? = some c) : isPySpace c = false := by
  unfold sanitizePy at h
  rw [List.head?_map] at h
  cases hm : (stripPy (l.filter keepChar)).head? with
  | none => rw [hm] at h; simp at h
  | some d =>
    rw [hm] at h
    simp only [Option.map_some', Option.some.injEq] at h
    have hd : isPySpace d = false := stripPy_head?_not _ _ hm
    have hds : d ≠ ' ' := by
      intro he
      rw [he] at hd
      exact absurd hd (by decide)
    rw [← h]
    unfold underscoreSpaces
    rw [if_neg hds]
    exact hd

theorem sanitizePy_getLast?_not (l : Chars) (c : Char)
    (h : (sanitizePy l).getLast? = some c) : isPySpace c = false := by
  unfold sanitizePy at h
  rw [List.getLast?_map] at h
  cases hm : (stripPy (l.filter keepChar)).getLast? with
  | none => rw [hm] at h; simp at h
  | some d =>
    rw [hm] at h
    simp only [Option.map_some', Option.some.injEq] at h
    have hd : isPySpace d = false := stripPy_getLast?_not _ _ hm
    have hds : d ≠ ' ' := by
      intro he
      rw [he] at hd
      exact absurd hd (by decide)
    rw [← h]
    unfold underscoreSpaces
    rw [if_neg hds]
    exact hd

theorem sanitizePy_idem (l : Chars) : sanitizePy (sanitizePy l) = sanitizePy l := by
  have hfilter : (sanitizePy l).filter keepChar = sanitizePy l :=
    List.filter_eq_self.mpr (fun c hc => (mem_sanitizePy l c hc).1)
  have hstrip : stripPy (sanitizePy l) = sanitizePy l :=
    stripPy_eq_self _ (fun c hc => sanitizePy_head?_not l c hc)
      (fun c hc => sanitizePy_getLast?_not l c hc)
  have hmap : (sanitizePy l).map underscoreSpaces = sanitizePy l := by
    have hcongr : (sanitizePy l).map underscoreSpaces = (sanitizePy l).map id :=
      List.map_congr_left (fun c hc => by
        simp [underscoreSpaces, (mem_sanitizePy l c hc).2])
    rw [hcongr, List.map_id]
  calc sanitizePy (sanitizePy l)
      = (stripPy ((sanitizePy l).filter keepChar)).map underscoreSpaces := rfl
    _ = (stripPy (sanitizePy l)).map underscoreSpaces := by rw [hfilter]
    _ = (sanitizePy l).map underscoreSpaces := by rw [hstrip]
    _ = sanitizePy l := hmap

theorem mem_dedupAux : ∀ (l seen : List Chars) (x : Chars),
    x ∈ dedupAux seen l ↔ x ∈ l ∧ x ∉ seen := by
  intro l
  induction l with
  | nil => intro seen x; simp [dedupAux]
  | cons u rest ih =>
    intro seen x
    by_cases hu : u ∈ seen
    · rw [dedupAux, if_pos hu]
      constructor
      · intro h1
        obtain ⟨hx, hn⟩ := (ih seen x).mp h1
        exact ⟨List.mem_cons_of_mem _ hx, hn⟩
      · rintro ⟨hx, hn⟩
        rcases List.mem_cons.mp hx with rfl | hx'
        · exact absurd hu hn
        · exact (ih seen x).mpr ⟨hx', hn⟩
    · rw [dedupAux, if_neg hu]
      constructor
      · intro h1
        rcases List.mem_cons.mp h1 with rfl | h2
        · exact ⟨List.mem_cons_self _ _, hu⟩
        · obtain ⟨hx, hn⟩ := (ih (u :: seen) x).mp h2
          exact ⟨List.mem_cons_of_mem _ hx, fun hs => hn (List.mem_cons_of_mem _ hs)⟩
      · rintro ⟨hx, hn⟩
        rcases List.mem_cons.mp hx with rfl | hx'
        · exact List.mem_cons_self _ _
        · by_cases hxu : x = u
          · subst hxu; exact List.mem_cons_self _ _
          · refine List.mem_cons_of_mem _ ((ih (u :: seen) x).mpr ⟨hx', ?_⟩)
            intro hmem
            rcases List.mem_cons.mp hmem with h3 | h3
            · exact hxu h3
            · exact hn h3

theorem nodup_dedupAux : ∀ (l seen : List Chars), (dedupAux seen l).Nodup := by
  intro l
  induction l with
  | nil => intro seen; simp [dedupAux]
  | cons u rest ih =>
    intro seen
    by_cases hu : u ∈ seen
    · rw [dedupAux, if_pos hu]; exact ih seen
    · rw [dedupAux, if_neg hu]
      refine List.nodup_cons.mpr ⟨?_, ih (u :: seen)⟩
      intro hmem
      exact ((mem_dedupAux rest (u :: seen) u).mp hmem).2 (List.mem_cons_self _ _)

theorem length_dedupAux : ∀ (l seen : List Chars), (dedupAux seen l).length ≤ l.length := by
  intro l
  induction l with
  | nil => intro seen; simp [dedupAux]
  | cons u rest ih =>
    intro seen
    by_cases hu : u ∈ seen
    · rw [dedupAux, if_pos hu]
      exact Nat.le_succ_of_le (ih seen)
    · rw [dedupAux, if_neg hu, List.length_cons]
      exact Nat.succ_le_succ (ih (u :: seen))

theorem firstIdx_cons_self (x : Chars) (l : List Chars) : firstIdx x (x :: l) = 0 := by
  simp [firstIdx]

theorem firstIdx_cons_ne (x u : Chars) (l : List Chars) (h : u ≠ x) :
    firstIdx x (u :: l) = firstIdx x l + 1 := by
  simp [firstIdx, h]

theorem pairwise_dedupAux : ∀ (l seen : List Chars),
    (dedupAux seen l).Pairwise (fun a b => firstIdx a l < firstIdx b l) := by
  intro l
  induction l with
  | nil => intro seen; simp [dedupAux]
  | cons u rest ih =>
    intro seen
    by_cases hu : u ∈ seen
    · rw [dedupAux, if_pos hu]
      refine List.Pairwise.imp_of_mem ?_ (ih seen)
      intro a b ha hb hab
      have hna : a ≠ u := by
        rintro rfl
        exact ((mem_dedupAux rest seen a).mp ha).2 hu
      have hnb : b ≠ u := by
        rintro rfl
        exact ((mem_dedupAux rest seen b).mp hb).2 hu
      rw [firstIdx_cons_ne _ _ _ (Ne.symm hna), firstIdx_cons_ne _ _ _ (Ne.symm hnb)]
      exact Nat.succ_lt_succ hab
    · rw [dedupAux, if_neg hu]
      refine List.pairwise_cons.mpr ⟨?_, ?_⟩
      · intro b hb
        have hnb : b ≠ u := by
          rintro rfl
          exact ((mem_dedupAux rest (b :: seen) b).mp hb).2 (List.mem_cons_self _ _)
        rw [firstIdx_cons_self, firstIdx_cons_ne _ _ _ (Ne.symm hnb)]
        exact Nat.succ_pos _
      · refine List.Pairwise.imp_of_mem ?_ (ih (u :: seen))
        intro a b ha hb hab
        have hna : a ≠ u := by
          rintro rfl
          exact ((mem_dedupAux rest (a :: seen) a).mp ha).2 (List.mem_cons_self _ _)
        have hnb : b ≠ u := by
          rintro rfl
          exact ((mem_dedupAux rest (b :: seen) b).mp hb).2 (List.mem_cons_self _ _)
        rw [firstIdx_cons_ne _ _ _ (Ne.symm hna), firstIdx_cons_ne _ _ _ (Ne.symm hnb)]
        exact Nat.succ_lt_succ hab

theorem dedup_cons (u : Chars) (rest : List Chars) :
    dedup (u :: rest) = u :: dedupAux [u] rest := by
  rw [dedup, dedupAux, if_neg (List.not_mem_nil u)]

theorem pickAudio_eq_none (probe : Chars → Probe) : ∀ (l : List Chars),
    (∀ v ∈ l, probe v ≠ Probe.status 200) → pickAudio probe l = none := by
  intro l
  induction l with
  | nil => intro _; rfl
  | cons u rest ih =>
    intro h
    rw [pickAudio, if_neg (h u (List.mem_cons_self _ _))]
    exact ih (fun v hv => h v (List.mem_cons_of_mem _ hv))

/-- C5: deduplication of the scanned candidate list yields a list with no
duplicates, containing exactly the distinct matched links, ordered by the
position of their first occurrence in scan order, with length at most the
number of matches. -/
theorem C5_dedup_spec (l : List Chars) :
    (dedup l).Nodup ∧ (∀ x, x ∈ dedup l ↔ x ∈ l) ∧ (dedup l).length ≤ l.length ∧
      (dedup l).Pairwise (fun a b => firstIdx a l < firstIdx b l) := by
  refine ⟨nodup_dedupAux l [], ?_, length_dedupAux l [], pairwise_dedupAux l []⟩
  intro x
  rw [dedup, mem_dedupAux]
  simp

/-- C3: the probe loop inspects the deduplicated candidates in order and
selects the first candidate whose probe returns the success status 200;
candidates placed after the first successful one are never selected. -/
theorem C3_first_success (probe : Chars → Probe) (pre post : List Chars) (u : Chars)
    (hpre : ∀ v ∈ pre, probe v ≠ Probe.status 200)
    (hu : probe u = Probe.status 200) :
    pickAudio probe (pre ++ u :: post) = some u := by
  induction pre with
  | nil =>
    rw [List.nil_append, pickAudio, if_pos hu]
  | cons v vs ih =>
    rw [List.cons_append, pickAudio, if_neg (hpre v (List.mem_cons_self _ _))]
    exact ih (fun w hw => hpre w (List.mem_cons_of_mem _ hw))

/-- Witness for C3 at a concrete probe assignment and candidate list. -/
theorem C3_first_success_witness :
    pickAudio probeOnlyB (["a".data] ++ "b".data :: ["c".data]) = some "b".data :=
  C3_first_success probeOnlyB ["a".data] ["c".data] "b".data (by decide) (by decide)

/-- C4: when the deduplicated candidate list is non-empty and every probe
errors or returns a non-success status, extraction selects the first
deduplicated candidate as the audio URL. -/
theorem C4_fallback_first (page : Page) (probe : Chars → Probe) (u : Chars)
    (rest : List Chars) (hd : dedup page.mp3Urls = u :: rest)
    (hfail : ∀ v ∈ u :: rest, probe v ≠ Probe.status 200) :
    (extract_audio_url (.ok page) probe).1 = some u := by
  have hne : page.mp3Urls ≠ [] := by
    intro he
    rw [he] at hd
    exact List.cons_ne_nil u rest hd.symm
  have hie : page.mp3Urls.isEmpty = false := by
    rw [List.isEmpty_eq_false]
    exact hne
  have hpick : pickAudio probe (u :: rest) = none :=
    pickAudio_eq_none probe _ hfail
  simp [extract_audio_url, hie, hd, hpick, pyFalsy]

/-- Witness for C4 at a concrete page (with a duplicated candidate) and an
all-failing probe assignment. -/
theorem C4_fallback_first_witness :
    (extract_audio_url (.ok ⟨["x".data, "x".data, "y".data], none⟩)
      (fun _ => Probe.fail)).1 = some "x".data :=
  C4_fallback_first ⟨["x".data, "x".data, "y".data], none⟩ (fun _ => Probe.fail)
    "x".data ["y".data] (by decide) (by decide)

/-- C8: the title sanitization step of line 94 (remove characters outside
word/whitespace/hyphen, strip surrounding whitespace, replace spaces by
underscores) is idempotent. -/
theorem C8_sanitize_idempotent (l : Chars) : sanitizePy (sanitizePy l) = sanitizePy l :=
  sanitizePy_idem l

/-- C9: extraction returns its two results atomically paired: every failure
path yields `(none, none)` and every success path yields both an audio URL
and a title. -/
theorem C9_result_atomic (fetch : FetchResult) (probe : Chars → Probe) :
    extract_audio_url fetch probe = (none, none) ∨
      ∃ u t, extract_audio_url fetch probe = (some u, some t) := by
  cases fetch with
  | err => exact Or.inl rfl
  | ok page =>
    cases hm : page.mp3Urls with
    | nil =>
      left
      simp [extract_audio_url, hm]
    | cons u0 rest0 =>
      right
      have hie : page.mp3Urls.isEmpty = false := by
        rw [List.isEmpty_eq_false, hm]
        exact List.cons_ne_nil u0 rest0
      have hd : dedup page.mp3Urls = u0 :: dedupAux [u0] rest0 := by
        rw [hm]
        exact dedup_cons u0 rest0
      by_cases hp : pyFalsy (pickAudio probe (dedup page.mp3Urls)) = true
      · refine ⟨u0, titleOf page.titleMatch, ?_⟩
        rw [hd] at hp
        simp [extract_audio_url, hie, hd, hp]
      · cases hpick : pickAudio probe (dedup page.mp3Urls) with
        | none =>
          rw [hpick] at hp
          exact absurd rfl hp
        | some w =>
          refine ⟨w, titleOf page.titleMatch, ?_⟩
          rw [hpick] at hp
          simp [extract_audio_url, hie, hpick, hp]

/-- C10: when a title element is found but its text does not contain the
separator `' - '`, extraction discards the title text and returns the
(sanitized) default name `'udio_song'`. -/
theorem C10_default_title (page : Page) (probe : Chars → Probe) (t : Chars)
    (hne : page.mp3Urls ≠ []) (ht : page.titleMatch = some t)
    (hsep : occursIn " - ".data t = false) :
    (extract_audio_url (.ok page) probe).2 = some "udio_song".data := by
  have hie : page.mp3Urls.isEmpty = false := by
    rw [List.isEmpty_eq_false]
    exact hne
  have htitle : titleOf page.titleMatch = "udio_song".data := by
    rw [ht]
    simp only [titleOf, hsep, Bool.false_eq_true, if_false]
    decide
  simp [extract_audio_url, hie, htitle]

/-- Witness for C10 at a concrete page whose title lacks the separator. -/
theorem C10_default_title_witness :
    (extract_audio_url (.ok ⟨["u".data], some "NoSeparator Here".data⟩)
      (fun _ => Probe.fail)).2 = some "udio_song".data :=
  C10_default_title ⟨["u".data], some "NoSeparator Here".data⟩ (fun _ => Probe.fail)
    "NoSeparator Here".data (by decide) rfl (by decide)

/-- C1 counterexample: the claim that the extracted title is never empty
(and contains only word characters, underscores and hyphens) fails.  On a
page whose title is `'A - ! | Udio'` the returned title is the empty
string, and on a page whose title is `'A - a<TAB>b | Udio'` the returned
title contains a tab character. -/
theorem C1_counterexample :
    (extract_audio_url (.ok ⟨["u".data], some "A - ! | Udio".data⟩)
      (fun _ => Probe.fail)).2 = some [] ∧
    '\t' ∈ (((extract_audio_url (.ok ⟨["u".data], some "A - a\tb | Udio".data⟩)
      (fun _ => Probe.fail)).2).getD []) := by
  decide

/-- C1 amended: on every successful extraction a title is returned; it is
the default `'udio_song'` when no title element is found or when the title
text lacks the `' - '` separator, and otherwise it is the sanitized song
segment, whose characters are word characters, hyphens, or non-space
whitespace, and which may be empty. -/
theorem C1_amended_title (page : Page) (probe : Chars → Probe)
    (hne : page.mp3Urls ≠ []) :
    ∃ ts, (extract_audio_url (.ok page) probe).2 = some ts ∧
      (∀ c ∈ ts, isWordChar c = true ∨ c = '-' ∨ (isPySpace c = true ∧ c ≠ ' ')) ∧
      (page.titleMatch = none → ts = "udio_song".data) ∧
      (∀ t, page.titleMatch = some t → occursIn " - ".data t = false →
        ts = "udio_song".data) := by
  have hie : page.mp3Urls.isEmpty = false := by
    rw [List.isEmpty_eq_false]
    exact hne
  refine ⟨titleOf page.titleMatch, ?_, ?_, ?_, ?_⟩
  · simp [extract_audio_url, hie]
  · intro c hc
    cases htm : page.titleMatch with
    | none =>
      rw [htm] at hc
      have hall : ("udio_song".data).all isWordChar = true := by decide
      exact Or.inl (List.all_eq_true.mp hall c hc)
    | some t =>
      rw [htm] at hc
      simp only [titleOf] at hc
      obtain ⟨hk, hs⟩ := mem_sanitizePy _ c hc
      unfold keepChar at hk
      rw [Bool.or_eq_true, Bool.or_eq_true] at hk
      rcases hk with (hw | hsp) | hh
      · exact Or.inl hw
      · exact Or.inr (Or.inr ⟨hsp, hs⟩)
      · exact Or.inr (Or.inl (eq_of_beq hh))
  · intro h0
    rw [h0]
    decide
  · intro t ht hsep
    rw [ht]
    simp only [titleOf, hsep, Bool.false_eq_true, if_false]
    decide

/-- Witness for the amended C1 at a concrete page without a title element. -/
theorem C1_amended_title_witness :
    ∃ ts, (extract_audio_url (.ok ⟨["u".data], none⟩) (fun _ => Probe.fail)).2 = some ts ∧
      (∀ c ∈ ts, isWordChar c = true ∨ c = '-' ∨ (isPySpace c = true ∧ c ≠ ' ')) ∧
      ((Page.mk ["u".data] none).titleMatch = none → ts = "udio_song".data) ∧
      (∀ t, (Page.mk ["u".data] none).titleMatch = some t →
        occursIn " - ".data t = false → ts = "udio_song".data) :=
  C1_amended_title ⟨["u".data], none⟩ (fun _ => Probe.fail) (by decide)

/-- C2 counterexample: with a valid song URL, a missing output directory
and a failing `os.makedirs`, the run terminates by an uncaught exception,
refuting the claim that every operation of the orchestrator sequence ends
in an explicit indicator or a deliberate exit. -/
theorem C2_counterexample :
    main_fn ⟨["prog".data, "https://www.udio.com/songs/abc".data], false, false,
      FetchResult.err, fun _ => Probe.fail, DlOutcome.netErr⟩ =
      (MainOutcome.uncaught, false) := by
  decide

/-- C2 amended: validation, extraction and download always return explicit
indicators, and provided the output directory exists or its creation
succeeds, the orchestrator never terminates by an uncaught exception; the
sole unguarded operation is the `os.makedirs` call of line 169. -/
theorem C2_amended_no_uncaught (env : Env)
    (h : env.dirExists = true ∨ env.makedirsOk = true) :
    (main_fn env).1 ≠ MainOutcome.uncaught := by
  simp only [main_fn]
  split
  · simp
  · split
    · simp
    · split
      · rename_i hcond
        exfalso
        rcases h with h | h <;> simp [h] at hcond
      · split
        · simp
        · split <;> simp

/-- Witness for the amended C2 at a concrete environment whose output
directory already exists. -/
theorem C2_amended_no_uncaught_witness :
    (main_fn envDirExists).1 ≠ MainOutcome.uncaught :=
  C2_amended_no_uncaught envDirExists (Or.inl rfl)

/-- C6 counterexample: the URL `https://www.udio.com:443/songs/abc` parses
with host `www.udio.com` and a path containing `/songs/`, yet the validator
returns false, because the code compares the full netloc (which includes the
port) against `'www.udio.com'`. -/
theorem C6_counterexample :
    is_valid_udio_url "https://www.udio.com:443/songs/abc".data = false ∧
    parsedHostname "https://www.udio.com:443/songs/abc".data = some "www.udio.com".data ∧
    (parsedPath "https://www.udio.com:443/songs/abc".data).map (occursIn "/songs/".data) =
      some true := by
  decide

/-- C6 amended: the validator returns true exactly when the string parses
(parse failures yield false rather than an exception) with its full network
location — userinfo and port included, compared case-sensitively — equal to
`'www.udio.com'` and with `'/songs/'` occurring in its path. -/
theorem C6_amended_validator (s : Chars) :
    is_valid_udio_url s = true ↔
      ∃ p, urlparseModel s = ParseResult.ok p ∧ p.netloc = "www.udio.com".data ∧
        occursIn "/songs/".data p.path = true := by
  unfold is_valid_udio_url
  cases hp : urlparseModel s with
  | err =>
    constructor
    · intro h
      exact absurd h (by simp)
    · rintro ⟨q, hq, -, -⟩
      cases hq
  | ok p =>
    constructor
    · intro h
      rw [Bool.and_eq_true] at h
      exact ⟨p, rfl, of_decide_eq_true h.1, h.2⟩
    · rintro ⟨q, hq, h1, h2⟩
      injection hq with hq'
      subst hq'
      rw [Bool.and_eq_true]
      exact ⟨decide_eq_true h1, h2⟩

/-- C7: when the page scan yields zero MP3 matches, extraction returns the
absent pair, and a run that reaches extraction (valid URL, directory
available) exits with code 1 without creating any output file. -/
theorem C7_zero_matches (page : Page) (env : Env) (hm : page.mp3Urls = [])
    (hf : env.fetch = FetchResult.ok page) (ha : 2 ≤ env.argv.length)
    (hv : is_valid_udio_url (stripPy (env.argv.getD 1 [])) = true)
    (hd : env.dirExists = true ∨ env.makedirsOk = true) :
    extract_audio_url env.fetch env.probe = (none, none) ∧
      main_fn env = (MainOutcome.exit 1, false) := by
  have hex : extract_audio_url env.fetch env.probe = (none, none) := by
    rw [hf]
    simp [extract_audio_url, hm]
  refine ⟨hex, ?_⟩
  have hdir : (!env.dirExists && !env.makedirsOk) = false := by
    rcases hd with h | h <;> simp [h]
  simp [main_fn, Nat.not_lt.mpr ha, hv, hdir, hex, pyFalsy]

/-- Witness for C7 at a concrete environment whose fetched page has no
MP3 match. -/
theorem C7_zero_matches_witness :
    extract_audio_url envNoMatch.fetch envNoMatch.probe = (none, none) ∧
      main_fn envNoMatch = (MainOutcome.exit 1, false) :=
  C7_zero_matches ⟨[], none⟩ envNoMatch rfl rfl (by decide) (by decide) (Or.inl rfl)
